import Mathlib

/-!
Shallow embedding of the mzcompose test-orchestration layer
(`misc/python/materialize/mzcompose.py`) and of
`misc/python/materialize/zippy/replica_capabilities.py`, together with
proofs about the environment-variable interpolation engine, the step
registry, host-port discovery, the wait primitives, scoped service
overrides, and source-capable cluster selection.
-/

namespace Mzcompose

/-! ### Environments

Python `Dict[str, str]` environments are modelled as association lists
with unique keys looked up first-match (`env.get(var)`). -/

abbrev Env := List (String × String)

/-- `env.get(var)` for a Python string dict. -/
def lookupEnv (env : Env) (k : String) : Option String :=
  match env with
  | [] => none
  | (k', v) :: rest => if k' = k then some v else lookupEnv rest k

/-! ### The two bash-like reference grammars

`_BASHLIKE_ENV_VAR_PATTERN` is `\$\{(?P<var>[^:}]+)(?P<default>:-[^}]+)?\}`
and `_BASHLIKE_ALT_VAR_PATTERN` is `\$\{(?P<var>[^:}]+):\+(?P<alt_var>[^}]+)\}`.
Both are modelled as deterministic scanners over `List Char`.  Because the
character classes `[^:}]` and `[^}]` cannot consume the delimiter that must
follow them, the greedy match of each group is forced and backtracking can
never produce a different match, so the scanners below compute exactly the
regex match at a given position. -/

/-- A character matched by `[^:}]` (the `var` group). -/
def isVarChar (c : Char) : Bool := c ≠ ':' && c ≠ '}'

/-- A character matched by `[^}]` (the `default`/`alt_var` groups). -/
def isDefChar (c : Char) : Bool := c ≠ '}'

/-- Attempt to match `_BASHLIKE_ENV_VAR_PATTERN` at the head of the input.
On success returns the `var` group, the `default` group (without the
leading `:-`, which `_subst` strips), and the unconsumed remainder. -/
def matchEnvAt : List Char → Option (List Char × Option (List Char) × List Char)
  | '$' :: '{' :: rest =>
    let v := rest.takeWhile isVarChar
    let r1 := rest.dropWhile isVarChar
    if v.isEmpty then none
    else
      match r1 with
      | '}' :: r2 => some (v, none, r2)
      | ':' :: '-' :: r2 =>
        let d := r2.takeWhile isDefChar
        let r3 := r2.dropWhile isDefChar
        if d.isEmpty then none
        else
          match r3 with
          | '}' :: r4 => some (v, some d, r4)
          | _ => none
      | _ => none
  | _ => none

/-- Attempt to match `_BASHLIKE_ALT_VAR_PATTERN` at the head of the input.
On success returns the `var` group, the `alt_var` group and the remainder. -/
def matchAltAt : List Char → Option (List Char × List Char × List Char)
  | '$' :: '{' :: rest =>
    let v := rest.takeWhile isVarChar
    let r1 := rest.dropWhile isVarChar
    if v.isEmpty then none
    else
      match r1 with
      | ':' :: '+' :: r2 =>
        let a := r2.takeWhile isDefChar
        let r3 := r2.dropWhile isDefChar
        if a.isEmpty then none
        else
          match r3 with
          | '}' :: r4 => some (v, a, r4)
          | _ => none
      | _ => none
  | _ => none

/-- The diagnostic `_subst` emits via `say` for an unknown variable:
`f"WARNING: unknown env var {var!r}"`. -/
def warnUnknown (v : List Char) : String :=
  "WARNING: unknown env var '" ++ String.mk v ++ "'"

/-- The body of `_subst(env, match)`: produced diagnostics paired with the
replacement text.  If `var` is in the environment its value is used; else a
present default (already stripped of `:-`) is used; else the diagnostic is
recorded and `match.group(0)`, i.e. the original `${var}` text, is
returned. -/
def substMatch (env : Env) (v : List Char) (d : Option (List Char)) :
    List String × List Char :=
  match lookupEnv env (String.mk v) with
  | some val => ([], val.data)
  | none =>
    match d with
    | some dd => ([], dd)
    | none => ([warnUnknown v], '$' :: '{' :: (v ++ ['}']))

/-- The body of `_alt_subst(env, match)`: if `var` is present in the
environment (bound to anything, the empty string included) the literal
`alt_var` text replaces the match, else the empty string does. -/
def altSubstMatch (env : Env) (v : List Char) (a : List Char) : List Char :=
  match lookupEnv env (String.mk v) with
  | some _ => a
  | none => []

/-- `_BASHLIKE_ENV_VAR_PATTERN.sub(functools.partial(_subst, env), ·)`:
left-to-right, non-overlapping replacement, accumulating diagnostics.
`fuel` bounds the number of scan steps; every step consumes at least one
input character, so `fuel = input.length` runs the scan to completion. -/
def substEnvLoop (env : Env) : Nat → List Char → List String × List Char
  | _, [] => ([], [])
  | 0, l => ([], l)
  | fuel + 1, c :: cs =>
    match matchEnvAt (c :: cs) with
    | some (v, d, rest) =>
      let r := substMatch env v d
      let r' := substEnvLoop env fuel rest
      (r.1 ++ r'.1, r.2 ++ r'.2)
    | none =>
      let r' := substEnvLoop env fuel cs
      (r'.1, c :: r'.2)

/-- `_BASHLIKE_ALT_VAR_PATTERN.sub(functools.partial(_alt_subst, env), ·)`. -/
def substAltLoop (env : Env) : Nat → List Char → List Char
  | _, [] => []
  | 0, l => l
  | fuel + 1, c :: cs =>
    match matchAltAt (c :: cs) with
    | some (v, a, rest) => altSubstMatch env v a ++ substAltLoop env fuel rest
    | none => c :: substAltLoop env fuel cs

/-- The full default-substitution pass over one string leaf. -/
def substEnvChars (env : Env) (l : List Char) : List String × List Char :=
  substEnvLoop env l.length l

/-- The full alternate-substitution pass over one string leaf. -/
def substAltChars (env : Env) (l : List Char) : List Char :=
  substAltLoop env l.length l

/-- String-level default-substitution pass (diagnostics, result). -/
def stringSubstEnv (env : Env) (s : String) : List String × String :=
  let r := substEnvChars env s.data
  (r.1, String.mk r.2)

/-- String-level alternate-substitution pass. -/
def stringSubstAlt (env : Env) (s : String) : String :=
  String.mk (substAltChars env s.data)

/-- The exact text of a `${v}` reference. -/
def refPlain (v : List Char) : List Char := '$' :: '{' :: (v ++ ['}'])

/-- The exact text of a `${v:-d}` reference. -/
def refDefault (v d : List Char) : List Char :=
  '$' :: '{' :: (v ++ ':' :: '-' :: (d ++ ['}']))

/-- The exact text of a `${v:+a}` reference. -/
def refAlt (v a : List Char) : List Char :=
  '$' :: '{' :: (v ++ ':' :: '+' :: (a ++ ['}']))

/-- A legal `var` group: non-empty and free of `:` and `}`. -/
def ValidVar (v : List Char) : Prop := v ≠ [] ∧ ∀ c ∈ v, isVarChar c

/-- A legal `default`/`alt_var` group: non-empty and free of `}`. -/
def ValidDef (d : List Char) : Prop := d ≠ [] ∧ ∀ c ∈ d, isDefChar c

instance (v : List Char) : Decidable (ValidVar v) := by
  unfold ValidVar; infer_instance

instance (d : List Char) : Decidable (ValidDef d) := by
  unfold ValidDef; infer_instance

/-! ### Configuration trees

`_substitute_env_vars(val, env)` walks an arbitrary YAML-shaped value:
strings get both substitution passes (default pass first, then alternate
pass), dict values and list elements are substituted element-wise in
place, and every other scalar passes through unchanged. -/

/-- A YAML-shaped configuration value. -/
inductive ConfigValue where
  | str (s : String)
  | int (n : Int)
  | bool (b : Bool)
  | null
  | map (kvs : List (String × ConfigValue))
  | seq (xs : List ConfigValue)

mutual

/-- `_substitute_env_vars(val, env)`: diagnostics collected in pass order
paired with the substituted value. -/
def substituteEnvVars (env : Env) : ConfigValue → List String × ConfigValue
  | .str s =>
    let r := stringSubstEnv env s
    (r.1, .str (stringSubstAlt env r.2))
  | .map kvs =>
    let r := substMap env kvs
    (r.1, .map r.2)
  | .seq xs =>
    let r := substSeq env xs
    (r.1, .seq r.2)
  | .int n => ([], .int n)
  | .bool b => ([], .bool b)
  | .null => ([], .null)

/-- Element-wise substitution of a dict's values (`val[k] = ...` loop). -/
def substMap (env : Env) : List (String × ConfigValue) →
    List String × List (String × ConfigValue)
  | [] => ([], [])
  | (k, v) :: rest =>
    let r := substituteEnvVars env v
    let r' := substMap env rest
    (r.1 ++ r'.1, (k, r.2) :: r'.2)

/-- Element-wise substitution of a list's elements (`val[i] = ...` loop). -/
def substSeq (env : Env) : List ConfigValue → List String × List ConfigValue
  | [] => ([], [])
  | v :: rest =>
    let r := substituteEnvVars env v
    let r' := substSeq env rest
    (r.1 ++ r'.1, r.2 :: r'.2)

end

/-- `true` when some position of the input matches
`_BASHLIKE_ENV_VAR_PATTERN`. -/
def hasEnvMatch : List Char → Bool
  | [] => false
  | c :: cs => (matchEnvAt (c :: cs)).isSome || hasEnvMatch cs

/-- `true` when some position of the input matches
`_BASHLIKE_ALT_VAR_PATTERN`. -/
def hasAltMatch : List Char → Bool
  | [] => false
  | c :: cs => (matchAltAt (c :: cs)).isSome || hasAltMatch cs

/-- A string leaf free of both variable-reference grammars. -/
def varFreeString (s : String) : Bool :=
  !hasEnvMatch s.data && !hasAltMatch s.data

mutual

/-- A configuration value with no variable-reference syntax anywhere. -/
def noVarSyntax : ConfigValue → Bool
  | .str s => varFreeString s
  | .map kvs => noVarSyntaxMap kvs
  | .seq xs => noVarSyntaxSeq xs
  | .int _ => true
  | .bool _ => true
  | .null => true

def noVarSyntaxMap : List (String × ConfigValue) → Bool
  | [] => true
  | (_, v) :: rest => noVarSyntax v && noVarSyntaxMap rest

def noVarSyntaxSeq : List ConfigValue → Bool
  | [] => true
  | v :: rest => noVarSyntax v && noVarSyntaxSeq rest

end

/-! ### The step registry (`Steps.register`)

Step classes are identified abstractly by a numeric tag.  The registry
state carries `Steps._steps` (name → class) and the set of attribute names
present on the `Workflow` class (core methods plus the convenience methods
added by earlier registrations). -/

/-- Registry state: `Steps._steps` plus `Workflow`'s attribute names. -/
structure StepsState where
  steps : List (String × Nat)
  workflowAttrs : List String

/-- `name.replace("-", "_")`, with the reserved exception that `run`
becomes `run_service` because `Workflow.run` already exists. -/
def derivedMethodName (name : String) : String :=
  let f := String.mk (name.data.map (fun c => if c = '-' then '_' else c))
  if f = "run" then "run_service" else f

/-- Outcome of `Steps.register(name)` applied to a step class. -/
inductive RegisterResult where
  | doubleRegistration (name : String)
  | methodCollision (funcName : String)
  | ok (st : StepsState)

/-- `Steps.register(name)(cls)`: fail on a duplicate step name; otherwise
record the class, derive the convenience-method name, and fail if
`Workflow` already has an attribute of that name, else attach the
convenience method. -/
def registerStep (st : StepsState) (name : String) (cls : Nat) : RegisterResult :=
  if (st.steps.lookup name).isSome then .doubleRegistration name
  else
    let st1 : StepsState := { st with steps := st.steps ++ [(name, cls)] }
    let fn := derivedMethodName name
    if st1.workflowAttrs.contains fn then .methodCollision fn
    else .ok { st1 with workflowAttrs := st1.workflowAttrs ++ [fn] }

/-! ### Host-port discovery (`Composition.find_host_ports`)

The live container metadata returned by `docker inspect` is modelled as a
list of per-container records each holding `NetworkSettings.Ports`: guest
port name → optional list of host bindings (`null` entries become `[]` via
`port_entry or []`).  Host IPs arrive already parsed the way
`ipaddress.ip_address` classifies them. -/

/-- A parsed host IP as classified by `ipaddress.ip_address`. -/
inductive IpAddr where
  | v4 (a b c d : Nat)
  | v6 (groups : List Nat)
deriving DecidableEq

/-- `isinstance(ipaddress.ip_address(ip), ipaddress.IPv4Address)`. -/
def IpAddr.isIPv4 : IpAddr → Bool
  | .v4 _ _ _ _ => true
  | .v6 _ => false

/-- One element of a `NetworkSettings.Ports` entry. -/
structure PortBinding where
  hostIp : IpAddr
  hostPort : String
deriving DecidableEq

/-- One container's inspect record, reduced to the fields the loop reads. -/
structure ContainerInfo where
  ports : List (String × Option (List PortBinding))

/-- The inner loop body: append `p["HostPort"]` when not yet collected and
the bound address is IPv4. -/
def addBinding (ports : List String) (p : PortBinding) : List String :=
  if ¬ ports.contains p.hostPort ∧ p.hostIp.isIPv4 then ports ++ [p.hostPort]
  else ports

/-- The loop over one container's `NetworkSettings.Ports` entries. -/
def collectEntries (ports : List String)
    (entries : List (String × Option (List PortBinding))) : List String :=
  entries.foldl (fun ports entry => (entry.2.getD []).foldl addBinding ports) ports

/-- `find_host_ports`'s collection loop over the inspected containers of
the service. -/
def find_host_ports (infos : List ContainerInfo) : List String :=
  infos.foldl
    (fun ports info =>
      info.ports.foldl
        (fun ports entry => (entry.2.getD []).foldl addBinding ports)
        ports)
    []

/-- The service's metadata records an IPv4 binding with host port `h`. -/
def HasIPv4Binding (infos : List ContainerInfo) (h : String) : Prop :=
  ∃ info ∈ infos, ∃ entry ∈ info.ports, ∃ p ∈ entry.2.getD [],
    p.hostIp.isIPv4 = true ∧ p.hostPort = h

instance (infos : List ContainerInfo) (h : String) :
    Decidable (HasIPv4Binding infos h) := by
  unfold HasIPv4Binding; infer_instance

/-! ### `wait-for-tcp` (`WaitForTcpStep.run`)

The outer `ui.timeout_loop(timeout_secs)` is modelled as at most `timeout`
poll iterations.  The externally observed reachability of the primary
target and of each dependency at iteration `i` is supplied as oracles
(`_check_tcp` raising `CalledProcessError` ↦ `false`). -/

/-- A `WaitDependency` record (host, port, optional hint). -/
structure WaitDependency where
  host : String
  port : Nat
  hint : Option String
deriving DecidableEq

/-- How a `wait-for-tcp` run ends: success at an iteration, an immediate
dependency failure at an iteration (the error names the dependency's host
and port and surfaces `service_logs(dep.host)`), or the timeout error. -/
inductive WaitTcpResult where
  | success (iter : Nat)
  | depFailure (iter : Nat) (host : String) (port : Nat)
  | timeout
deriving DecidableEq

/-- One poll iteration and its successors: try the primary target, then
re-check every dependency in order, aborting on the first unreachable
one. -/
def waitTcpGo (primaryUp : Nat → Bool) (depUp : Nat → WaitDependency → Bool)
    (deps : List WaitDependency) : Nat → Nat → WaitTcpResult
  | 0, _ => .timeout
  | fuel + 1, i =>
    if primaryUp i then .success i
    else
      match deps.find? (fun d => ! depUp i d) with
      | some d => .depFailure i d.host d.port
      | none => waitTcpGo primaryUp depUp deps fuel (i + 1)

/-- `WaitForTcpStep.run`, as a function of the reachability oracles. -/
def waitForTcpRun (timeout : Nat) (primaryUp : Nat → Bool)
    (depUp : Nat → WaitDependency → Bool) (deps : List WaitDependency) :
    WaitTcpResult :=
  waitTcpGo primaryUp depUp deps timeout 0

/-! ### The `wait` step (`WaitStep.run`)

`container_ids = [c for c in ps_proc.stdout.strip().split("\n")]` is
modelled with faithful Python `str.strip` / `str.split("\n")` semantics;
`docker wait` is an oracle from container id to the parsed list of exit
codes. -/

/-- Python whitespace stripped by `str.strip()` (ASCII portion). -/
def isPySpace (c : Char) : Bool :=
  c = ' ' || c = '\t' || c = '\n' || c = '\r' || c = '\x0b' || c = '\x0c'

/-- Python `s.strip()`. -/
def pyStrip (l : List Char) : List Char :=
  ((l.dropWhile isPySpace).reverse.dropWhile isPySpace).reverse

/-- Python `s.split("\n")`: always at least one field; `"".split("\n")`
is `[""]`. -/
def pySplitNL : List Char → List (List Char)
  | [] => [[]]
  | c :: cs =>
    let r := pySplitNL cs
    if c = '\n' then [] :: r
    else
      match r with
      | [] => [[c]]
      | x :: xs => (c :: x) :: xs

/-- How `WaitStep.run` ends, one constructor per `raise`/return point. -/
inductive WaitStepResult where
  | tooMany (ids : List (List Char))
  | noContainers
  | multiExit (codes : List Int)
  | wrongCode (expected got : Int)
  | ok
deriving DecidableEq

/-- `WaitStep.run`, as a function of the captured `ps -q` stdout and a
`docker wait` oracle yielding the parsed exit codes for a container id. -/
def waitStepRun (expectedReturnCode : Int) (psStdout : List Char)
    (dockerWait : List Char → List Int) : WaitStepResult :=
  let containerIds := pySplitNL (pyStrip psStdout)
  if containerIds.length > 1 then .tooMany containerIds
  else
    match containerIds with
    | [] => .noContainers
    | cid :: _ =>
      let returnCodes := dockerWait cid
      if returnCodes.length ≠ 1 then .multiExit returnCodes
      else
        match returnCodes with
        | [] => .multiExit returnCodes
        | rc :: _ =>
          if rc ≠ expectedReturnCode then .wrongCode expectedReturnCode rc
          else .ok

/-! ### Scoped service override (`Workflow.with_services`)

The composition state is the `services` mapping of the compose dict plus
the serialized artifact `_write_compose` maintains.  Service
configurations are opaque byte strings, so restoration can be compared
byte-for-byte.  The body of the `with` block is an oracle that transforms
the state and reports whether it raised. -/

/-- Composition state: in-memory `compose["services"]` plus the written
compose file. -/
structure CompositionState where
  services : List (String × String)
  file : Option (List (String × String))
deriving DecidableEq

/-- Python dict assignment `d[k] = v` on an association list. -/
def updateAssoc : List (String × String) → String → String →
    List (String × String)
  | [], n, cfg => [(n, cfg)]
  | (k, v) :: rest, n, cfg =>
    if k = n then (k, cfg) :: rest else (k, v) :: updateAssoc rest n cfg

/-- `Composition._write_compose()`: serialize the current topology. -/
def writeCompose (st : CompositionState) : CompositionState :=
  { st with file := some st.services }

/-- The override loop of `with_services`: each service must already exist,
else a `RuntimeError` escapes with the partially mutated state (the
`try`/`finally` has not been entered yet). -/
def applyOverrides (st : CompositionState) :
    List (String × String) → (String × CompositionState) ⊕ CompositionState
  | [] => .inr st
  | (n, cfg) :: rest =>
    if (st.services.lookup n).isSome then
      applyOverrides { st with services := updateAssoc st.services n cfg } rest
    else .inl (n, st)

/-- How `with_services` ends: a `RuntimeError` for a missing service, or
the `finally`-restored state together with whether the body raised. -/
inductive WithServicesResult where
  | errMissing (name : String) (st : CompositionState)
  | done (bodyRaised : Bool) (st : CompositionState)
deriving DecidableEq

/-- `Workflow.with_services(services)`: deep-copy the old compose, write
the overridden topology, run the body, and in `finally` restore the old
compose wholesale and re-serialize — on the normal and the raising path
alike. -/
def with_services (st₀ : CompositionState) (services : List (String × String))
    (body : CompositionState → Bool × CompositionState) : WithServicesResult :=
  let old := st₀.services
  match applyOverrides st₀ services with
  | .inl (n, stPartial) => .errMissing n stPartial
  | .inr st1 =>
    let st2 := writeCompose st1
    let r := body st2
    .done r.1 (writeCompose { r.2 with services := old })

end Mzcompose

namespace Zippy

/-! ### `replica_capabilities.py`

`Capabilities.get(ReplicaExists)` (from `zippy/framework.py`, not in this
source tree) returns the stored capabilities of the requested class; it is
modelled as a filter over the capability list. -/

/-- A zippy capability; `replicaExists` models the `ReplicaExists` class,
`other` stands for every other capability class. -/
inductive Capability where
  | replicaExists (name : String)
  | other (tag : String)
deriving DecidableEq

/-- Whether a capability is of class `ReplicaExists`. -/
def Capability.isReplicaExists : Capability → Bool
  | .replicaExists _ => true
  | .other _ => false

/-- The capability store threaded through zippy tests. -/
structure Capabilities where
  caps : List Capability
deriving DecidableEq

/-- `capabilities.get(ReplicaExists)`. -/
def Capabilities.getReplicaExists (c : Capabilities) : List Capability :=
  c.caps.filter Capability.isReplicaExists

/-- `source_capable_clusters(capabilities)`: the default cluster may have
multiple replicas once any replica exists, so only `storage` can host
sources then; otherwise `quickstart` is offered too. -/
def source_capable_clusters (c : Capabilities) : List String :=
  if c.getReplicaExists.length > 0 then ["storage"]
  else ["storage", "quickstart"]

end Zippy

/-! ## Theorems -/

namespace Mzcompose

/-! ### Interpolation-engine lemmas -/

theorem span_exact (p : Char → Bool) (v : List Char) (c : Char) (rest : List Char)
    (hv : ∀ x ∈ v, p x = true) (hc : p c = false) :
    (v ++ c :: rest).takeWhile p = v ∧ (v ++ c :: rest).dropWhile p = c :: rest := by
  induction v with
  | nil => simp [List.takeWhile_cons, List.dropWhile_cons, hc]
  | cons a v ih =>
    have ha : p a = true := hv a (by simp)
    have ih' := ih (fun x hx => hv x (by simp [hx]))
    simp [List.takeWhile_cons, List.dropWhile_cons, ha, ih'.1, ih'.2]

theorem isEmpty_false_of_ne_nil {v : List Char} (h : v ≠ []) :
    v.isEmpty = false := by
  cases v with
  | nil => exact absurd rfl h
  | cons a l => rfl

theorem matchEnvAt_refPlain (v rest : List Char) (hv : ValidVar v) :
    matchEnvAt ('$' :: '{' :: (v ++ '}' :: rest)) = some (v, none, rest) := by
  obtain ⟨hne, hall⟩ := hv
  have hspan := span_exact isVarChar v '}' rest hall (by decide)
  simp [matchEnvAt, hspan.1, hspan.2, isEmpty_false_of_ne_nil hne]

theorem matchEnvAt_refDefault (v d rest : List Char) (hv : ValidVar v)
    (hd : ValidDef d) :
    matchEnvAt ('$' :: '{' :: (v ++ ':' :: '-' :: (d ++ '}' :: rest))) =
      some (v, some d, rest) := by
  obtain ⟨hne, hall⟩ := hv
  obtain ⟨hdne, hdall⟩ := hd
  have hspan := span_exact isVarChar v ':' ('-' :: (d ++ '}' :: rest)) hall (by decide)
  have hdspan := span_exact isDefChar d '}' rest hdall (by decide)
  simp [matchEnvAt, hspan.1, hspan.2, hdspan.1, hdspan.2,
    isEmpty_false_of_ne_nil hne, isEmpty_false_of_ne_nil hdne]

theorem matchEnvAt_refAlt_none (v a rest : List Char) (hv : ValidVar v) :
    matchEnvAt ('$' :: '{' :: (v ++ ':' :: '+' :: (a ++ '}' :: rest))) = none := by
  obtain ⟨hne, hall⟩ := hv
  have hspan := span_exact isVarChar v ':' ('+' :: (a ++ '}' :: rest)) hall (by decide)
  simp [matchEnvAt, hspan.1, hspan.2, isEmpty_false_of_ne_nil hne]

theorem matchAltAt_refAlt (v a rest : List Char) (hv : ValidVar v)
    (ha : ValidDef a) :
    matchAltAt ('$' :: '{' :: (v ++ ':' :: '+' :: (a ++ '}' :: rest))) =
      some (v, a, rest) := by
  obtain ⟨hne, hall⟩ := hv
  obtain ⟨hane, haall⟩ := ha
  have hspan := span_exact isVarChar v ':' ('+' :: (a ++ '}' :: rest)) hall (by decide)
  have haspan := span_exact isDefChar a '}' rest haall (by decide)
  simp [matchAltAt, hspan.1, hspan.2, haspan.1, haspan.2,
    isEmpty_false_of_ne_nil hne, isEmpty_false_of_ne_nil hane]

theorem substEnvLoop_nil (env : Env) (fuel : Nat) :
    substEnvLoop env fuel [] = ([], []) := by
  cases fuel <;> rfl

theorem substEnvLoop_matched (env : Env) (fuel : Nat) (c : Char) (cs : List Char)
    (v : List Char) (d : Option (List Char)) (rest : List Char)
    (hm : matchEnvAt (c :: cs) = some (v, d, rest)) :
    substEnvLoop env (fuel + 1) (c :: cs) =
      ((substMatch env v d).1 ++ (substEnvLoop env fuel rest).1,
       (substMatch env v d).2 ++ (substEnvLoop env fuel rest).2) := by
  simp only [substEnvLoop, hm]

theorem substAltLoop_nil (env : Env) (fuel : Nat) :
    substAltLoop env fuel [] = [] := by
  cases fuel <;> rfl

theorem substAltLoop_matched (env : Env) (fuel : Nat) (c : Char) (cs : List Char)
    (v a rest : List Char)
    (hm : matchAltAt (c :: cs) = some (v, a, rest)) :
    substAltLoop env (fuel + 1) (c :: cs) =
      altSubstMatch env v a ++ substAltLoop env fuel rest := by
  simp only [substAltLoop, hm]

theorem substEnvChars_refPlain (env : Env) (v : List Char) (hv : ValidVar v) :
    substEnvChars env (refPlain v) = substMatch env v none := by
  unfold substEnvChars refPlain
  rw [show ('$' :: '{' :: (v ++ ['}'])).length = (v.length + 2) + 1 from by
    simp]
  rw [substEnvLoop_matched env _ _ _ v none [] (matchEnvAt_refPlain v [] hv),
    substEnvLoop_nil]
  simp

theorem substEnvChars_refDefault (env : Env) (v d : List Char)
    (hv : ValidVar v) (hd : ValidDef d) :
    substEnvChars env (refDefault v d) = substMatch env v (some d) := by
  unfold substEnvChars refDefault
  rw [show ('$' :: '{' :: (v ++ ':' :: '-' :: (d ++ ['}']))).length =
      (v.length + d.length + 4) + 1 from by simp; omega]
  rw [substEnvLoop_matched env _ _ _ v (some d) []
    (matchEnvAt_refDefault v d [] hv hd), substEnvLoop_nil]
  simp

theorem substAltChars_refAlt (env : Env) (v a : List Char)
    (hv : ValidVar v) (ha : ValidDef a) :
    substAltChars env (refAlt v a) = altSubstMatch env v a := by
  unfold substAltChars refAlt
  rw [show ('$' :: '{' :: (v ++ ':' :: '+' :: (a ++ ['}']))).length =
      (v.length + a.length + 4) + 1 from by simp; omega]
  rw [substAltLoop_matched env _ _ _ v a [] (matchAltAt_refAlt v a [] hv ha),
    substAltLoop_nil]
  simp

/-- C1: the default-substitution pass (`_BASHLIKE_ENV_VAR_PATTERN` with
`_subst`) on a `${VAR}` or `${VAR:-default}` string leaf: if `VAR` is in
the environment the reference becomes its value with any default clause
ignored; otherwise a present default replaces the reference with the
default text taken literally; otherwise the original `${VAR}` text is left
in place and the unknown-variable diagnostic is recorded — the pass
returns in every case rather than raising. -/
theorem subst_default_semantics (env : Env) (v d : List Char)
    (hv : ValidVar v) (hd : ValidDef d) :
    (∀ val, lookupEnv env (String.mk v) = some val →
      substEnvChars env (refPlain v) = ([], val.data) ∧
      substEnvChars env (refDefault v d) = ([], val.data)) ∧
    (lookupEnv env (String.mk v) = none →
      substEnvChars env (refDefault v d) = ([], d) ∧
      substEnvChars env (refPlain v) = ([warnUnknown v], refPlain v)) := by
  have h1 := substEnvChars_refPlain env v hv
  have h2 := substEnvChars_refDefault env v d hv hd
  constructor
  · intro val hval
    rw [h1, h2]
    unfold substMatch
    rw [hval]
    exact ⟨rfl, rfl⟩
  · intro hnone
    rw [h1, h2]
    unfold substMatch
    rw [hnone]
    exact ⟨rfl, rfl⟩

/-- Witness for `subst_default_semantics`: `${A}`/`${A:-dd}` with `A=x`
resolve to `x`; with `A` unset, `${A:-dd}` resolves to `dd` and `${A}`
stays in place with the diagnostic recorded. -/
theorem subst_default_semantics_witness :
    substEnvChars [("A", "x")] (refPlain "A".data) = ([], "x".data) ∧
    substEnvChars [("A", "x")] (refDefault "A".data "dd".data) = ([], "x".data) ∧
    substEnvChars [] (refDefault "A".data "dd".data) = ([], "dd".data) ∧
    substEnvChars [] (refPlain "A".data) =
      ([warnUnknown "A".data], refPlain "A".data) := by
  have hset := (subst_default_semantics [("A", "x")] "A".data "dd".data
    (by decide) (by decide)).1 "x" (by decide)
  have hunset := (subst_default_semantics [] "A".data "dd".data
    (by decide) (by decide)).2 (by decide)
  exact ⟨hset.1, hset.2, hunset.1, hunset.2⟩

/-- C2: the alternate-substitution pass (`_BASHLIKE_ALT_VAR_PATTERN` with
`_alt_subst`) on a `${VAR:+alt}` string leaf substitutes the literal `alt`
text whenever `VAR` is present in the environment — bound to any value,
the empty string included — and substitutes the empty string when `VAR` is
absent. -/
theorem alt_subst_semantics (env : Env) (v a : List Char)
    (hv : ValidVar v) (ha : ValidDef a) :
    ((lookupEnv env (String.mk v)).isSome = true →
      substAltChars env (refAlt v a) = a) ∧
    (lookupEnv env (String.mk v) = none →
      substAltChars env (refAlt v a) = []) := by
  have h := substAltChars_refAlt env v a hv ha
  constructor
  · intro hsome
    rw [h]
    unfold altSubstMatch
    obtain ⟨val, hval⟩ := Option.isSome_iff_exists.mp hsome
    rw [hval]
  · intro hnone
    rw [h]
    unfold altSubstMatch
    rw [hnone]

/-- Witness for `alt_subst_semantics`: `${A:+alt}` resolves to `alt` when
`A` is bound to the empty string and to the empty string when `A` is
unset. -/
theorem alt_subst_semantics_witness :
    substAltChars [("A", "")] (refAlt "A".data "alt".data) = "alt".data ∧
    substAltChars [] (refAlt "A".data "alt".data) = [] := by
  have h1 := (alt_subst_semantics [("A", "")] "A".data "alt".data
    (by decide) (by decide)).1 (by decide)
  have h2 := (alt_subst_semantics [] "A".data "alt".data
    (by decide) (by decide)).2 (by decide)
  exact ⟨h1, h2⟩

/-! ### No-op (idempotence) lemmas for resolved inputs -/

theorem substEnvLoop_id (env : Env) :
    ∀ (fuel : Nat) (l : List Char), l.length ≤ fuel →
      hasEnvMatch l = false → substEnvLoop env fuel l = ([], l) := by
  intro fuel
  induction fuel with
  | zero =>
    intro l hl _
    cases l with
    | nil => rfl
    | cons c cs => simp at hl
  | succ f ih =>
    intro l hl hm
    cases l with
    | nil => exact substEnvLoop_nil env (f + 1)
    | cons c cs =>
      rw [hasEnvMatch, Bool.or_eq_false_iff] at hm
      have hnone : matchEnvAt (c :: cs) = none := by
        cases h : matchEnvAt (c :: cs) with
        | none => rfl
        | some x => rw [h] at hm; simp at hm
      simp only [substEnvLoop, hnone]
      rw [ih cs (by simp at hl; omega) hm.2]

theorem substAltLoop_id (env : Env) :
    ∀ (fuel : Nat) (l : List Char), l.length ≤ fuel →
      hasAltMatch l = false → substAltLoop env fuel l = l := by
  intro fuel
  induction fuel with
  | zero =>
    intro l hl _
    cases l with
    | nil => rfl
    | cons c cs => simp at hl
  | succ f ih =>
    intro l hl hm
    cases l with
    | nil => exact substAltLoop_nil env (f + 1)
    | cons c cs =>
      rw [hasAltMatch, Bool.or_eq_false_iff] at hm
      have hnone : matchAltAt (c :: cs) = none := by
        cases h : matchAltAt (c :: cs) with
        | none => rfl
        | some x => rw [h] at hm; simp at hm
      simp only [substAltLoop, hnone]
      rw [ih cs (by simp at hl; omega) hm.2]

theorem stringSubst_id (env : Env) (s : String) (h : varFreeString s = true) :
    stringSubstEnv env s = ([], s) ∧ stringSubstAlt env s = s := by
  rw [varFreeString, Bool.and_eq_true] at h
  have h1 : hasEnvMatch s.data = false := by
    have := h.1; rwa [Bool.not_eq_true'] at this
  have h2 : hasAltMatch s.data = false := by
    have := h.2; rwa [Bool.not_eq_true'] at this
  constructor
  · unfold stringSubstEnv substEnvChars
    rw [substEnvLoop_id env _ _ (Nat.le_refl _) h1]
  · unfold stringSubstAlt substAltChars
    rw [substAltLoop_id env _ _ (Nat.le_refl _) h2]

mutual

theorem noop_val (env : Env) (v : ConfigValue) (h : noVarSyntax v = true) :
    substituteEnvVars env v = ([], v) := by
  cases v with
  | str s =>
    have hfree : varFreeString s = true := by rwa [noVarSyntax] at h
    have hs := stringSubst_id env s hfree
    simp only [substituteEnvVars, hs.1, hs.2]
  | map kvs =>
    have hm : noVarSyntaxMap kvs = true := by rwa [noVarSyntax] at h
    simp only [substituteEnvVars, noop_map env kvs hm]
  | seq xs =>
    have hx : noVarSyntaxSeq xs = true := by rwa [noVarSyntax] at h
    simp only [substituteEnvVars, noop_seq env xs hx]
  | int n => simp only [substituteEnvVars]
  | bool b => simp only [substituteEnvVars]
  | null => simp only [substituteEnvVars]

theorem noop_map (env : Env) (kvs : List (String × ConfigValue))
    (h : noVarSyntaxMap kvs = true) : substMap env kvs = ([], kvs) := by
  match kvs with
  | [] => simp only [substMap]
  | (k, v) :: rest =>
    rw [noVarSyntaxMap, Bool.and_eq_true] at h
    simp only [substMap, noop_val env v h.1, noop_map env rest h.2,
      List.nil_append]

theorem noop_seq (env : Env) (xs : List ConfigValue)
    (h : noVarSyntaxSeq xs = true) : substSeq env xs = ([], xs) := by
  match xs with
  | [] => simp only [substSeq]
  | v :: rest =>
    rw [noVarSyntaxSeq, Bool.and_eq_true] at h
    simp only [substSeq, noop_val env v h.1, noop_seq env rest h.2,
      List.nil_append]

end

/-- C3: on any configuration value free of variable-reference syntax
anywhere — under any environment — interpolation is a no-op: it returns
the value unchanged (and emits no diagnostics), hence is idempotent on
fully resolved inputs. -/
theorem interpolation_noop (env : Env) (v : ConfigValue)
    (h : noVarSyntax v = true) : substituteEnvVars env v = ([], v) :=
  noop_val env v h

/-- Witness for `interpolation_noop` on a nested syntax-free value. -/
theorem interpolation_noop_witness :
    noVarSyntax (.map [("a", .str "hello"),
      ("b", .seq [.int 3, .null, .bool true, .str "p$x{y}"])]) = true ∧
    substituteEnvVars [("A", "x")] (.map [("a", .str "hello"),
      ("b", .seq [.int 3, .null, .bool true, .str "p$x{y}"])]) =
      ([], .map [("a", .str "hello"),
        ("b", .seq [.int 3, .null, .bool true, .str "p$x{y}"])]) := by
  have h : noVarSyntax (.map [("a", .str "hello"),
      ("b", .seq [.int 3, .null, .bool true, .str "p$x{y}"])]) = true := by
    simp only [noVarSyntax, noVarSyntaxMap, noVarSyntaxSeq, Bool.and_eq_true]
    repeat' apply And.intro
    all_goals decide
  exact ⟨h, interpolation_noop _ _ h⟩

/-! ### Structural-recursion lemmas -/

theorem substMap_snd (env : Env) :
    ∀ kvs : List (String × ConfigValue),
      (substMap env kvs).2 =
        kvs.map (fun kv => (kv.1, (substituteEnvVars env kv.2).2)) := by
  intro kvs
  induction kvs with
  | nil => simp only [substMap, List.map_nil]
  | cons kv rest ih =>
    obtain ⟨k, v⟩ := kv
    simp only [substMap, List.map_cons]
    rw [ih]

theorem substSeq_snd (env : Env) :
    ∀ xs : List ConfigValue,
      (substSeq env xs).2 = xs.map (fun x => (substituteEnvVars env x).2) := by
  intro xs
  induction xs with
  | nil => simp only [substSeq, List.map_nil]
  | cons v rest ih =>
    simp only [substSeq, List.map_cons]
    rw [ih]

/-- C4: interpolation recurses structurally — the mapping
`{"a": "${X}"}` under `{X: "1"}` resolves to `{"a": "1"}`, mapping values
and sequence elements are each substituted individually in place, and
non-string scalar leaves pass through unchanged. -/
theorem substitute_structural (env : Env) :
    substituteEnvVars [("X", "1")] (.map [("a", .str "${X}")]) =
      ([], .map [("a", .str "1")]) ∧
    (∀ kvs, (substituteEnvVars env (.map kvs)).2 =
      .map (kvs.map (fun kv => (kv.1, (substituteEnvVars env kv.2).2)))) ∧
    (∀ xs, (substituteEnvVars env (.seq xs)).2 =
      .seq (xs.map (fun x => (substituteEnvVars env x).2))) ∧
    (∀ n : Int, substituteEnvVars env (.int n) = ([], .int n)) ∧
    (∀ b : Bool, substituteEnvVars env (.bool b) = ([], .bool b)) ∧
    substituteEnvVars env .null = ([], .null) := by
  refine ⟨?_, ?_, ?_, fun n => by simp only [substituteEnvVars],
    fun b => by simp only [substituteEnvVars], by simp only [substituteEnvVars]⟩
  · have h1 : stringSubstEnv [("X", "1")] "${X}" = ([], "1") := by decide
    have h2 : stringSubstAlt [("X", "1")] "1" = "1" := by decide
    simp only [substituteEnvVars, substMap, h1, h2, List.nil_append]
  · intro kvs
    simp only [substituteEnvVars]
    rw [substMap_snd]
  · intro xs
    simp only [substituteEnvVars]
    rw [substSeq_snd]

/-! ### Step-registry lemmas -/

theorem lookup_append_single_self (l : List (String × Nat)) (k : String)
    (v : Nat) (h : l.lookup k = none) : (l ++ [(k, v)]).lookup k = some v := by
  induction l with
  | nil => simp [List.lookup]
  | cons kv rest ih =>
    rw [List.cons_append]
    rw [List.lookup] at h ⊢
    cases hkv : (k == kv.1) with
    | true => simp [hkv] at h
    | false => simp only [hkv] at h ⊢; exact ih h

theorem lookup_append_single_other (l : List (String × Nat)) (k k' : String)
    (v : Nat) (hne : k ≠ k') : (l ++ [(k', v)]).lookup k = l.lookup k := by
  induction l with
  | nil =>
    have hb : (k == k') = false := beq_eq_false_iff_ne.mpr hne
    simp [List.lookup, hb]
  | cons kv rest ih =>
    rw [List.cons_append]
    rw [List.lookup, List.lookup]
    cases hkv : (k == kv.1) with
    | true => simp only [hkv]
    | false => simp only [hkv]; exact ih

/-- C5: registering a step under an existing name fails fatally with the
double-registration error; registering a step whose derived
convenience-method name (dashes to underscores, `run` exposed as
`run_service`) collides with an existing `Workflow` attribute fails
fatally; and a successful registration appends the new entry and method
name, leaving every previously registered name bound exactly as before —
registration never silently overwrites an existing entry or method. -/
theorem steps_register_spec (st : StepsState) (name : String) (cls : Nat) :
    derivedMethodName "run" = "run_service" ∧
    ((st.steps.lookup name).isSome = true →
      registerStep st name cls = .doubleRegistration name) ∧
    (st.steps.lookup name = none →
      st.workflowAttrs.contains (derivedMethodName name) = true →
      registerStep st name cls = .methodCollision (derivedMethodName name)) ∧
    (st.steps.lookup name = none →
      st.workflowAttrs.contains (derivedMethodName name) = false →
      registerStep st name cls =
        .ok ⟨st.steps ++ [(name, cls)],
             st.workflowAttrs ++ [derivedMethodName name]⟩ ∧
      (st.steps ++ [(name, cls)]).lookup name = some cls ∧
      ∀ n, n ≠ name → (st.steps ++ [(name, cls)]).lookup n = st.steps.lookup n) := by
  refine ⟨by decide, ?_, ?_, ?_⟩
  · intro h
    unfold registerStep
    rw [if_pos h]
  · intro hnone hcoll
    unfold registerStep
    rw [if_neg (by rw [hnone]; simp), if_pos hcoll]
  · intro hnone hfree
    refine ⟨?_, lookup_append_single_self _ _ _ hnone,
      fun n hn => lookup_append_single_other _ _ _ _ hn⟩
    unfold registerStep
    rw [if_neg (by rw [hnone]; simp), if_neg (by rw [hfree]; simp)]

/-- Witness for `steps_register_spec` at concrete registry states. -/
theorem steps_register_spec_witness :
    registerStep ⟨[("sleep", 7)], ["run", "print_env"]⟩ "sleep" 9 =
        .doubleRegistration "sleep" ∧
    registerStep ⟨[("sleep", 7)], ["run", "print_env"]⟩ "print-env" 9 =
        .methodCollision "print_env" ∧
    registerStep ⟨[("sleep", 7)], ["run", "print_env"]⟩ "wait-for-tcp" 9 =
        .ok ⟨[("sleep", 7), ("wait-for-tcp", 9)],
             ["run", "print_env", "wait_for_tcp"]⟩ := by
  have h1 := (steps_register_spec ⟨[("sleep", 7)], ["run", "print_env"]⟩
    "sleep" 9).2.1
  have h2 := (steps_register_spec ⟨[("sleep", 7)], ["run", "print_env"]⟩
    "print-env" 9).2.2.1
  have h3 := (steps_register_spec ⟨[("sleep", 7)], ["run", "print_env"]⟩
    "wait-for-tcp" 9).2.2.2
  refine ⟨h1 (by decide), ?_, ?_⟩
  · have := h2 (by decide) (by decide)
    rw [this]
    have hd : derivedMethodName "print-env" = "print_env" := by decide
    rw [hd]
  · have := (h3 (by decide) (by decide)).1
    rw [this]
    have hd : derivedMethodName "wait-for-tcp" = "wait_for_tcp" := by decide
    rw [hd]
    rfl

/-! ### Scoped-override lemmas -/

theorem lookup_updateAssoc_isSome (l : List (String × String)) (k n cfg : String)
    (h : (l.lookup k).isSome = true) :
    ((updateAssoc l n cfg).lookup k).isSome = true := by
  induction l with
  | nil => simp [List.lookup] at h
  | cons kv rest ih =>
    obtain ⟨k', v'⟩ := kv
    rw [List.lookup] at h
    unfold updateAssoc
    by_cases hk : k' = n
    · rw [if_pos hk, List.lookup]
      cases hb : (k == k') with
      | true => simp
      | false => rw [hb] at h; exact h
    · rw [if_neg hk, List.lookup]
      cases hb : (k == k') with
      | true => simp
      | false => rw [hb] at h; exact ih h

theorem applyOverrides_inr (services : List (String × String)) :
    ∀ st : CompositionState,
      (∀ s ∈ services, (st.services.lookup s.1).isSome = true) →
      ∃ st1, applyOverrides st services = .inr st1 := by
  induction services with
  | nil => intro st _; exact ⟨st, rfl⟩
  | cons sv rest ih =>
    intro st h
    obtain ⟨n, cfg⟩ := sv
    have hn : (st.services.lookup n).isSome = true := h (n, cfg) (by simp)
    unfold applyOverrides
    rw [if_pos hn]
    apply ih
    intro s hs
    exact lookup_updateAssoc_isSome _ _ _ _ (h s (by simp [hs]))

/-- C9: when every overridden service already exists in the topology,
`with_services` reaches its `finally` on both exit paths, and the state it
leaves behind — whether the body returned normally or raised — stores the
byte-for-byte pre-scope `services` mapping and has re-serialized the
restored topology. -/
theorem with_services_restores (st₀ : CompositionState)
    (services : List (String × String))
    (body : CompositionState → Bool × CompositionState)
    (h : ∀ s ∈ services, (st₀.services.lookup s.1).isSome = true) :
    ∃ raised st', with_services st₀ services body = .done raised st' ∧
      st'.services = st₀.services ∧ st'.file = some st₀.services := by
  obtain ⟨st1, h1⟩ := applyOverrides_inr services st₀ h
  refine ⟨(body (writeCompose st1)).1,
    writeCompose { (body (writeCompose st1)).2 with services := st₀.services },
    ?_, rfl, rfl⟩
  unfold with_services
  rw [h1]

/-- Witness for `with_services_restores`: a body that both mutates the
topology and raises, around an override of an existing service. -/
theorem with_services_restores_witness :
    ∃ raised st',
      with_services ⟨[("materialized", "cfgA")], some [("materialized", "cfgA")]⟩
          [("materialized", "cfgB")]
          (fun st => (true, { st with services := [("materialized", "junk")] }))
        = .done raised st' ∧
      st'.services = [("materialized", "cfgA")] ∧
      st'.file = some [("materialized", "cfgA")] :=
  with_services_restores
    ⟨[("materialized", "cfgA")], some [("materialized", "cfgA")]⟩
    [("materialized", "cfgB")]
    (fun st => (true, { st with services := [("materialized", "junk")] }))
    (by decide)

/-! ### Host-port discovery lemmas -/

theorem mem_addBinding (ports : List String) (p : PortBinding) (h : String) :
    h ∈ addBinding ports p ↔
      h ∈ ports ∨ (p.hostIp.isIPv4 = true ∧ p.hostPort = h) := by
  unfold addBinding
  split
  case isTrue hcond =>
    simp only [List.mem_append, List.mem_singleton]
    constructor
    · rintro (hm | rfl)
      · exact Or.inl hm
      · exact Or.inr ⟨hcond.2, rfl⟩
    · rintro (hm | ⟨_, rfl⟩)
      · exact Or.inl hm
      · exact Or.inr rfl
  case isFalse hcond =>
    constructor
    · exact Or.inl
    · rintro (hm | ⟨hip, rfl⟩)
      · exact hm
      · by_cases hc : ports.contains p.hostPort
        · exact List.mem_of_elem_eq_true hc
        · exact absurd ⟨hc, hip⟩ hcond

theorem nodup_addBinding (ports : List String) (p : PortBinding)
    (h : ports.Nodup) : (addBinding ports p).Nodup := by
  unfold addBinding
  split
  case isTrue hcond =>
    rw [← List.concat_eq_append]
    apply List.Nodup.concat ?_ h
    intro hm
    exact hcond.1 (List.elem_eq_true_of_mem hm)
  case isFalse => exact h

theorem mem_foldl_addBinding (ps : List PortBinding) :
    ∀ (ports : List String) (h : String),
      h ∈ ps.foldl addBinding ports ↔
        h ∈ ports ∨ ∃ p ∈ ps, p.hostIp.isIPv4 = true ∧ p.hostPort = h := by
  induction ps with
  | nil => simp
  | cons p ps ih =>
    intro ports h
    rw [List.foldl_cons, ih, mem_addBinding]
    simp only [List.mem_cons]
    constructor
    · rintro ((hm | hp) | ⟨q, hq, hqs⟩)
      · exact Or.inl hm
      · exact Or.inr ⟨p, Or.inl rfl, hp⟩
      · exact Or.inr ⟨q, Or.inr hq, hqs⟩
    · rintro (hm | ⟨q, (rfl | hq), hqs⟩)
      · exact Or.inl (Or.inl hm)
      · exact Or.inl (Or.inr hqs)
      · exact Or.inr ⟨q, hq, hqs⟩

theorem nodup_foldl_addBinding (ps : List PortBinding) :
    ∀ ports : List String, ports.Nodup → (ps.foldl addBinding ports).Nodup := by
  induction ps with
  | nil => intro ports h; exact h
  | cons p ps ih =>
    intro ports h
    exact ih _ (nodup_addBinding ports p h)

theorem mem_collectEntries (entries : List (String × Option (List PortBinding))) :
    ∀ (ports : List String) (h : String),
      h ∈ collectEntries ports entries ↔
        h ∈ ports ∨ ∃ entry ∈ entries, ∃ p ∈ entry.2.getD [],
          p.hostIp.isIPv4 = true ∧ p.hostPort = h := by
  induction entries with
  | nil => simp [collectEntries]
  | cons entry entries ih =>
    intro ports h
    rw [collectEntries, List.foldl_cons]
    rw [show (entries.foldl (fun ports e => (e.2.getD []).foldl addBinding ports)
        ((entry.2.getD []).foldl addBinding ports)) =
        collectEntries ((entry.2.getD []).foldl addBinding ports) entries from rfl]
    rw [ih, mem_foldl_addBinding]
    simp only [List.mem_cons]
    constructor
    · rintro ((hm | ⟨p, hp, hps⟩) | ⟨e, he, p, hp, hps⟩)
      · exact Or.inl hm
      · exact Or.inr ⟨entry, Or.inl rfl, p, hp, hps⟩
      · exact Or.inr ⟨e, Or.inr he, p, hp, hps⟩
    · rintro (hm | ⟨e, (rfl | he), p, hp, hps⟩)
      · exact Or.inl (Or.inl hm)
      · exact Or.inl (Or.inr ⟨p, hp, hps⟩)
      · exact Or.inr ⟨e, he, p, hp, hps⟩

theorem nodup_collectEntries (entries : List (String × Option (List PortBinding))) :
    ∀ ports : List String, ports.Nodup → (collectEntries ports entries).Nodup := by
  induction entries with
  | nil => intro ports h; exact h
  | cons entry entries ih =>
    intro ports h
    exact ih _ (nodup_foldl_addBinding _ _ h)

theorem mem_find_host_ports_aux (infos : List ContainerInfo) :
    ∀ (ports : List String) (h : String),
      h ∈ infos.foldl (fun ports info => collectEntries ports info.ports) ports ↔
        h ∈ ports ∨ HasIPv4Binding infos h := by
  induction infos with
  | nil => simp [HasIPv4Binding]
  | cons info infos ih =>
    intro ports h
    rw [List.foldl_cons, ih, mem_collectEntries]
    simp only [HasIPv4Binding, List.mem_cons]
    constructor
    · rintro ((hm | ⟨e, he, p, hp, hps⟩) | ⟨i, hi, rest⟩)
      · exact Or.inl hm
      · exact Or.inr ⟨info, Or.inl rfl, e, he, p, hp, hps⟩
      · exact Or.inr ⟨i, Or.inr hi, rest⟩
    · rintro (hm | ⟨i, (rfl | hi), rest⟩)
      · exact Or.inl (Or.inl hm)
      · exact Or.inl (Or.inr rest)
      · exact Or.inr ⟨i, hi, rest⟩

/-- C6: `find_host_ports` returns no duplicate entries, its entries are
exactly the host ports carried by IPv4 bindings in the service's container
port metadata, and in particular a host port bound both over IPv4 and IPv6
appears exactly once. -/
theorem find_host_ports_spec (infos : List ContainerInfo) :
    (find_host_ports infos).Nodup ∧
    (∀ h, h ∈ find_host_ports infos ↔ HasIPv4Binding infos h) ∧
    ∀ h, HasIPv4Binding infos h → (find_host_ports infos).count h = 1 := by
  have hfold : find_host_ports infos =
      infos.foldl (fun ports info => collectEntries ports info.ports) [] := rfl
  have hnodup : (find_host_ports infos).Nodup := by
    rw [hfold]
    have : ∀ (il : List ContainerInfo) (ports : List String), ports.Nodup →
        (il.foldl (fun ports info => collectEntries ports info.ports) ports).Nodup := by
      intro il
      induction il with
      | nil => intro ports h; exact h
      | cons info il ih =>
        intro ports h
        exact ih _ (nodup_collectEntries _ _ h)
    exact this infos [] List.nodup_nil
  have hmem : ∀ h, h ∈ find_host_ports infos ↔ HasIPv4Binding infos h := by
    intro h
    rw [hfold, mem_find_host_ports_aux]
    simp
  refine ⟨hnodup, hmem, fun h hip => ?_⟩
  exact List.count_eq_one_of_mem hnodup ((hmem h).mpr hip)

/-- Witness for `find_host_ports_spec`: metadata binding host port
`32769` both on an IPv4 and an IPv6 address yields the port exactly
once. -/
theorem find_host_ports_spec_witness :
    (find_host_ports [⟨[("6875/tcp",
        some [⟨.v4 0 0 0 0, "32769"⟩, ⟨.v6 [0], "32769"⟩])]⟩]).count "32769"
      = 1 :=
  (find_host_ports_spec _).2.2 "32769" (by decide)

/-! ### `wait-for-tcp` lemmas -/

theorem waitTcpGo_dep_aux (primaryUp : Nat → Bool)
    (depUp : Nat → WaitDependency → Bool) (deps : List WaitDependency) :
    ∀ (k fuel j : Nat), k < fuel →
      (∀ i, i ≤ k → primaryUp (j + i) = false) →
      (∀ i, i < k → ∀ d ∈ deps, depUp (j + i) d = true) →
      (∃ d ∈ deps, depUp (j + k) d = false) →
      ∃ d ∈ deps, depUp (j + k) d = false ∧
        waitTcpGo primaryUp depUp deps fuel j = .depFailure (j + k) d.host d.port := by
  intro k
  induction k with
  | zero =>
    intro fuel j hk hp _ hdown
    match fuel, hk with
    | fuel + 1, _ =>
      obtain ⟨d₀, hd₀mem, hd₀down⟩ := hdown
      have hfind : (deps.find? (fun d => ! depUp j d)).isSome := by
        apply List.find?_isSome.mpr
        refine ⟨d₀, hd₀mem, ?_⟩
        rw [Nat.add_zero] at hd₀down
        simp [hd₀down]
      obtain ⟨d, hd_eq⟩ := Option.isSome_iff_exists.mp hfind
      have hdmem := List.mem_of_find?_eq_some hd_eq
      have hdprop := List.find?_some hd_eq
      refine ⟨d, hdmem, ?_, ?_⟩
      · rw [Nat.add_zero]
        simpa using hdprop
      · have hpj : primaryUp j = false := by
          have := hp 0 (Nat.le_refl 0)
          rwa [Nat.add_zero] at this
        simp only [waitTcpGo, hpj, hd_eq, Bool.false_eq_true, if_false,
          Nat.add_zero]
  | succ k ih =>
    intro fuel j hk hp hd hdown
    match fuel, hk with
    | fuel + 1, hk =>
      have hpj : primaryUp j = false := by
        have := hp 0 (Nat.zero_le _)
        rwa [Nat.add_zero] at this
      have hfind : deps.find? (fun d => ! depUp j d) = none := by
        apply List.find?_eq_none.mpr
        intro d hdmem
        have := hd 0 (Nat.succ_pos k) d hdmem
        rw [Nat.add_zero] at this
        simp [this]
      have hstep :
          waitTcpGo primaryUp depUp deps (fuel + 1) j =
            waitTcpGo primaryUp depUp deps fuel (j + 1) := by
        simp only [waitTcpGo, hpj, hfind, Bool.false_eq_true, if_false]
      have harith : ∀ i : Nat, j + 1 + i = j + (i + 1) := by omega
      obtain ⟨d, hdmem, hddown, hres⟩ := ih fuel (j + 1) (Nat.lt_of_succ_lt_succ hk)
        (fun i hi => by rw [harith]; exact hp (i + 1) (Nat.succ_le_succ hi))
        (fun i hi d hdm => by
          rw [harith]; exact hd (i + 1) (Nat.succ_lt_succ hi) d hdm)
        (by rw [harith]; exact hdown)
      rw [harith] at hddown hres
      exact ⟨d, hdmem, hddown, by rw [hstep, hres]⟩

/-- C7: during a `wait-for-tcp` run with dependencies, if the primary
target has stayed unreachable through poll iteration `k < timeout` and no
dependency had failed before `k`, then the moment some dependency is
unreachable at iteration `k` the step fails at that very iteration with an
error naming that dependency's endpoint (whose service logs are what the
error surfaces), rather than polling on until the timeout elapses. -/
theorem waitForTcp_dep_shortcircuit (timeout k : Nat) (primaryUp : Nat → Bool)
    (depUp : Nat → WaitDependency → Bool) (deps : List WaitDependency)
    (hk : k < timeout)
    (hprim : ∀ j, j ≤ k → primaryUp j = false)
    (hdeps : ∀ j, j < k → ∀ d ∈ deps, depUp j d = true)
    (hdown : ∃ d ∈ deps, depUp k d = false) :
    ∃ d ∈ deps, depUp k d = false ∧
      waitForTcpRun timeout primaryUp depUp deps =
        .depFailure k d.host d.port := by
  have := waitTcpGo_dep_aux primaryUp depUp deps k timeout 0 hk
    (fun i hi => by rw [Nat.zero_add]; exact hprim i hi)
    (fun i hi d hd => by rw [Nat.zero_add]; exact hdeps i hi d hd)
    (by rw [Nat.zero_add]; exact hdown)
  rw [Nat.zero_add] at this
  exact this

/-- Witness for `waitForTcp_dep_shortcircuit`: the primary target never
comes up within a 5-iteration budget, and the single dependency goes down
at iteration 2 — the run fails at iteration 2 naming the dependency. -/
theorem waitForTcp_dep_shortcircuit_witness :
    ∃ d ∈ [(⟨"kafka", 9092, none⟩ : WaitDependency)],
      (fun i (_ : WaitDependency) => decide (i < 2)) 2 d = false ∧
      waitForTcpRun 5 (fun _ => false) (fun i _ => decide (i < 2))
          [⟨"kafka", 9092, none⟩] =
        .depFailure 2 d.host d.port :=
  waitForTcp_dep_shortcircuit 5 2 (fun _ => false)
    (fun i _ => decide (i < 2)) [⟨"kafka", 9092, none⟩]
    (by decide)
    (fun j _ => rfl)
    (fun j hj d _ => decide_eq_true hj)
    ⟨⟨"kafka", 9092, none⟩, by simp, by decide⟩

/-! ### `wait`-step lemmas -/

theorem pySplitNL_ne_nil (l : List Char) : pySplitNL l ≠ [] := by
  cases l with
  | nil => simp [pySplitNL]
  | cons c cs =>
    unfold pySplitNL
    by_cases hc : c = '\n'
    · simp [hc]
    · simp only [if_neg hc]
      cases h : pySplitNL cs <;> simp

theorem waitStepRun_ne_noContainers (e : Int) (s : List Char)
    (dw : List Char → List Int) : waitStepRun e s dw ≠ .noContainers := by
  have hne := pySplitNL_ne_nil (pyStrip s)
  unfold waitStepRun
  cases h : pySplitNL (pyStrip s) with
  | nil => exact absurd h hne
  | cons cid rest =>
    simp only [h]
    split
    · intro hc; cases hc
    · split
      · intro hc; cases hc
      · split
        · intro hc; cases hc
        · split
          · intro hc; cases hc
          · intro hc; cases hc

/-- C8, settled against the code as written: the zero-container branch of
`WaitStep.run` is unreachable — `"".split("\n")` is `[""]`, so an empty
`ps -q` capture yields `[""]`, passes both guards, and the step proceeds to
`docker wait` on the empty container id (here: `multiExit` from the wait
oracle) instead of raising the `"No containers returned"` error.  The
more-than-one-container and wrong-exit-code cases do raise their own
distinguishable errors, and the single-container matching-code case
completes normally. -/
theorem waitStep_zero_containers_bug :
    (∀ (e : Int) (s : List Char) (dw : List Char → List Int),
        (waitStepRun e s dw == WaitStepResult.noContainers) = false) ∧
    waitStepRun 0 [] (fun _ => []) = .multiExit [] ∧
    waitStepRun 0 "c1\nc2".data (fun _ => []) =
      .tooMany ["c1".data, "c2".data] ∧
    waitStepRun 0 "c1".data (fun _ => [1]) = .wrongCode 0 1 ∧
    waitStepRun 0 "c1".data (fun _ => [0]) = .ok := by
  refine ⟨fun e s dw => ?_, by decide, by decide, by decide, by decide⟩
  exact beq_eq_false_iff_ne.mpr (waitStepRun_ne_noContainers e s dw)

end Mzcompose

namespace Zippy

/-- C10: `source_capable_clusters` always offers `storage`; it returns
exactly `["storage"]` when some `ReplicaExists` capability is present and
exactly `["storage", "quickstart"]` when none is — `quickstart` is offered
iff no replica exists. -/
theorem source_capable_clusters_spec (c : Capabilities) :
    "storage" ∈ source_capable_clusters c ∧
    ((∃ cap ∈ c.caps, cap.isReplicaExists = true) →
      source_capable_clusters c = ["storage"]) ∧
    ((∀ cap ∈ c.caps, cap.isReplicaExists = false) →
      source_capable_clusters c = ["storage", "quickstart"]) := by
  refine ⟨?_, ?_, ?_⟩
  · unfold source_capable_clusters
    split <;> simp
  · rintro ⟨cap, hmem, hcap⟩
    unfold source_capable_clusters
    rw [if_pos]
    exact List.length_pos_of_mem (List.mem_filter.mpr ⟨hmem, hcap⟩)
  · intro h
    unfold source_capable_clusters
    rw [if_neg]
    have : c.getReplicaExists = [] := by
      apply List.filter_eq_nil_iff.mpr
      intro a ha
      simp [h a ha]
    simp [this]

/-- Witness for `source_capable_clusters_spec` with and without a
replica. -/
theorem source_capable_clusters_spec_witness :
    source_capable_clusters ⟨[.replicaExists "r1", .other "kafka"]⟩ =
        ["storage"] ∧
    source_capable_clusters ⟨[.other "kafka"]⟩ = ["storage", "quickstart"] := by
  constructor
  · exact (source_capable_clusters_spec ⟨[.replicaExists "r1", .other "kafka"]⟩).2.1
      ⟨.replicaExists "r1", by simp, rfl⟩
  · exact (source_capable_clusters_spec ⟨[.other "kafka"]⟩).2.2
      (by intro cap hc; simp at hc; subst hc; rfl)

end Zippy
